import Mathlib

/-!
Shallow embedding of the usedump-rs repository (src/used_item.rs and
src/main.rs). The program walks a cargo workspace, expands every `use`
declaration of every member-package file into leaf paths, resolves each leaf
via rust-analyzer goto-definition, classifies the results, and accumulates
them into per-file, per-kind ordered sets.

External collaborators (ra_ide::Analysis, ra_batch::load_cargo and the
syntax-tree types) are represented by explicit data: oracles are fields of
`Analysis` and `AnalysisHost`, syntax trees are inductive types mirroring the
shape the code consumes. `BTreeSet` and `BTreeMap` are modelled as strictly
sorted lists with the insertion behaviour of the standard containers.
-/

/-- `enum UsedItemKind` (src/used_item.rs lines 45 to 55), constructors in
declaration order. The derived Rust `Ord` compares discriminants, i.e. this
declaration order. -/
inductive UsedItemKind where
  | Module
  | Trait
  | Struct
  | Enum
  | Fn
  | Const
  | Macro
  | Other
deriving DecidableEq, Repr

/-- Discriminant of a `UsedItemKind` constructor, used to embed the derived
Rust `Ord` on the fieldless enum. -/
def UsedItemKind.toNat : UsedItemKind → Nat
  | .Module => 0
  | .Trait => 1
  | .Struct => 2
  | .Enum => 3
  | .Fn => 4
  | .Const => 5
  | .Macro => 6
  | .Other => 7

/-- The strict order on `UsedItemKind` given by the derived Rust `Ord`:
discriminant order, which is declaration order. -/
def UsedItemKind.lt (a b : UsedItemKind) : Prop := a.toNat < b.toNat

instance (a b : UsedItemKind) : Decidable (UsedItemKind.lt a b) :=
  Nat.decLt a.toNat b.toNat

/-- `ra_syntax::SyntaxKind` is a large closed enumeration of syntax node
kinds. We name the seven variants that `UsedItemKind::from_syntax_kind`
matches explicitly, a few of the real unmatched variants, and represent each
remaining variant by `OTHER_KIND n` with a distinguishing tag. -/
inductive SyntaxKind where
  | SOURCE_FILE
  | TRAIT_DEF
  | STRUCT_DEF
  | ENUM_DEF
  | FN_DEF
  | CONST_DEF
  | MACRO_CALL
  | MODULE
  | STATIC_DEF
  | TYPE_ALIAS_DEF
  | ENUM_VARIANT
  | OTHER_KIND (tag : Nat)
deriving DecidableEq, Repr

/-- `UsedItemKind::from_syntax_kind` (src/used_item.rs lines 58 to 69): the
seven explicitly matched syntax kinds map to their domain kind; every other
syntax kind falls through the wildcard arm to `Other`. -/
def UsedItemKind.from_syntax_kind : SyntaxKind → UsedItemKind
  | SyntaxKind.SOURCE_FILE => UsedItemKind.Module
  | SyntaxKind.TRAIT_DEF => UsedItemKind.Trait
  | SyntaxKind.STRUCT_DEF => UsedItemKind.Struct
  | SyntaxKind.ENUM_DEF => UsedItemKind.Enum
  | SyntaxKind.FN_DEF => UsedItemKind.Fn
  | SyntaxKind.CONST_DEF => UsedItemKind.Const
  | SyntaxKind.MACRO_CALL => UsedItemKind.Macro
  | _ => UsedItemKind.Other

/-- `struct UsedItem` (src/used_item.rs lines 72 to 76): a resolved import,
fields in declaration order (`name` first, `kind` second). -/
structure UsedItem where
  name : String
  kind : UsedItemKind
deriving DecidableEq, Repr

/-- The strict order on `UsedItem` given by the derived Rust `Ord`:
lexicographic over the fields in declaration order, so the `name` field is
compared first and the `kind` field second. -/
def UsedItem.lt (x y : UsedItem) : Prop :=
  x.name < y.name ∨ (x.name = y.name ∧ UsedItemKind.lt x.kind y.kind)

instance (x y : UsedItem) : Decidable (UsedItem.lt x y) := by
  unfold UsedItem.lt
  infer_instance

/-- `ra_ide::NavigationTarget`, restricted to the two accessors the code
uses: `name()` and `kind()`. -/
structure NavigationTarget where
  name : String
  kind : SyntaxKind
deriving DecidableEq, Repr

/-- `UsedItem::from_navigation_target` (src/used_item.rs lines 88 to 92). -/
def UsedItem.from_navigation_target (navigation_target : NavigationTarget) : UsedItem :=
  { name := navigation_target.name
    kind := UsedItemKind.from_syntax_kind navigation_target.kind }

/-- The shape of `ra_syntax::ast::UseTree` as consumed by
`used_items_in_use_tree`: a node either carries a `use_tree_list()` of child
trees (`group`) or it does not (`leaf`); a leaf is identified by the text
offset `use_tree.syntax().text_range().end()` at which it is resolved. -/
inductive UseTree where
  | leaf (endOffset : Nat)
  | group (children : List UseTree)
deriving Repr

/-- `ra_syntax::ast::UseItem`, restricted to the accessor the code uses:
`use_tree()`, which may be absent. -/
structure UseItem where
  use_tree : Option UseTree

/-- One top-level item of a source file (`ra_syntax::ast::ModuleItem`): a
`use` declaration or any other item (represented by a tag). -/
inductive ModuleItem where
  | useItem (u : UseItem)
  | otherItem (tag : Nat)

/-- `item_to_use_item` (src/used_item.rs lines 199 to 204). -/
def item_to_use_item : ModuleItem → Option UseItem
  | ModuleItem.useItem use_item => some use_item
  | ModuleItem.otherItem _ => none

/-- A parsed source file, exposing its top-level `items()`. -/
structure SourceFile where
  items : List ModuleItem

/-- `ra_ide::FilePosition`. -/
structure FilePosition where
  file_id : Nat
  offset : Nat

/-- The `ra_ide::Analysis` collaborator, restricted to the two queries the
code performs. `parse` returns a syntax tree or an error; `goto_definition`
returns `Ok(Some(targets))`, `Ok(None)` or an error, mirroring
`Cancelable<Option<RangeInfo<Vec<NavigationTarget>>>>` with the unused range
dropped. -/
structure Analysis where
  parse : Nat → Except Unit SourceFile
  goto_definition : FilePosition → Except Unit (Option (List NavigationTarget))

/-- `struct UsedItemResolver` (src/used_item.rs lines 95 to 99). The
`used_item_map` field is threaded explicitly through the functions below
instead of being stored, since Rust mutates it in place. -/
structure UsedItemResolver where
  analysis : Analysis
  file_id : Nat

mutual

/-- `UsedItemResolver::used_items_in_use_tree` (src/used_item.rs lines 165 to
196). A node with a `use_tree_list` concatenates the results of its children
in order, skipping children that return `None`; a node without one is a leaf,
resolved by `goto_definition` at its end offset, where anything other than
`Ok(Some(targets))` yields `None`. -/
def UsedItemResolver.used_items_in_use_tree (r : UsedItemResolver) :
    UseTree → Option (List UsedItem)
  | UseTree.group children =>
    some (UsedItemResolver.used_items_in_use_tree_children r children)
  | UseTree.leaf endOffset =>
    match r.analysis.goto_definition ⟨r.file_id, endOffset⟩ with
    | Except.ok (some navigation_targets) =>
      some (navigation_targets.map UsedItem.from_navigation_target)
    | Except.ok none => none
    | Except.error _ => none

/-- The `for use_tree in use_tree_list.use_trees()` loop inside the group arm
of `used_items_in_use_tree`: children are processed left to right and a child
whose recursive call returns `None` appends nothing. -/
def UsedItemResolver.used_items_in_use_tree_children (r : UsedItemResolver) :
    List UseTree → List UsedItem
  | [] => []
  | t :: ts =>
    (UsedItemResolver.used_items_in_use_tree r t).getD [] ++
      UsedItemResolver.used_items_in_use_tree_children r ts

end

/-- `UsedItemResolver::used_items_in_use_item` (src/used_item.rs lines 161 to
163): the `?` on `use_item.use_tree()` returns `None` when the declaration
has no tree. -/
def UsedItemResolver.used_items_in_use_item (r : UsedItemResolver)
    (use_item : UseItem) : Option (List UsedItem) :=
  match use_item.use_tree with
  | none => none
  | some t => r.used_items_in_use_tree t

/-- Functional model of `BTreeSet<UsedItem>::insert`: the set is a list kept
strictly sorted by the derived order `UsedItem.lt`; inserting an element that
compares equal to a present one leaves the set unchanged. -/
def UsedItemSet.insert (x : UsedItem) : List UsedItem → List UsedItem
  | [] => [x]
  | y :: ys =>
    if UsedItem.lt x y then x :: y :: ys
    else if x = y then y :: ys
    else y :: UsedItemSet.insert x ys

/-- `struct UsedItemMap` (src/used_item.rs lines 101 to 119): eight
`BTreeSet<UsedItem>` fields, one per kind; `Default` gives eight empty sets. -/
structure UsedItemMap where
  modules : List UsedItem := []
  traits : List UsedItem := []
  structs : List UsedItem := []
  enums : List UsedItem := []
  fns : List UsedItem := []
  consts : List UsedItem := []
  macros : List UsedItem := []
  others : List UsedItem := []
deriving DecidableEq, Repr

/-- The kind-set of a `UsedItemMap` for a given kind: the field into which
`add_imported_items` buckets an item of that kind. -/
def UsedItemMap.kindSet (m : UsedItemMap) : UsedItemKind → List UsedItem
  | UsedItemKind.Module => m.modules
  | UsedItemKind.Trait => m.traits
  | UsedItemKind.Struct => m.structs
  | UsedItemKind.Enum => m.enums
  | UsedItemKind.Fn => m.fns
  | UsedItemKind.Const => m.consts
  | UsedItemKind.Macro => m.macros
  | UsedItemKind.Other => m.others

/-- The body of the `for item in used_items` loop of
`UsedItemResolver::add_imported_items` (src/used_item.rs lines 145 to 159):
one item is inserted into the set matching its kind. -/
def UsedItemResolver.add_imported_item (m : UsedItemMap) (item : UsedItem) :
    UsedItemMap :=
  match item.kind with
  | UsedItemKind.Module => { m with modules := UsedItemSet.insert item m.modules }
  | UsedItemKind.Trait => { m with traits := UsedItemSet.insert item m.traits }
  | UsedItemKind.Struct => { m with structs := UsedItemSet.insert item m.structs }
  | UsedItemKind.Enum => { m with enums := UsedItemSet.insert item m.enums }
  | UsedItemKind.Fn => { m with fns := UsedItemSet.insert item m.fns }
  | UsedItemKind.Const => { m with consts := UsedItemSet.insert item m.consts }
  | UsedItemKind.Macro => { m with macros := UsedItemSet.insert item m.macros }
  | UsedItemKind.Other => { m with others := UsedItemSet.insert item m.others }

/-- `UsedItemResolver::add_imported_items` (src/used_item.rs lines 145 to
159): insert every item of the vector, in order. -/
def UsedItemResolver.add_imported_items (m : UsedItemMap)
    (used_items : List UsedItem) : UsedItemMap :=
  used_items.foldl UsedItemResolver.add_imported_item m

/-- `UsedItemResolver::used_items` (src/used_item.rs lines 130 to 143): a
parse failure yields `UsedItemMap::default()`; otherwise every top-level
`use` item is expanded and, when it yields `Some`, accumulated. -/
def UsedItemResolver.used_items (r : UsedItemResolver) : UsedItemMap :=
  match r.analysis.parse r.file_id with
  | Except.error _ => {}
  | Except.ok source_file =>
    (source_file.items.filterMap item_to_use_item).foldl
      (fun m use_item =>
        match r.used_items_in_use_item use_item with
        | some imported_items =>
          UsedItemResolver.add_imported_items m imported_items
        | none => m)
      {}

/-- `struct CrateMap` (src/used_item.rs lines 39 to 43): a
`BTreeMap<String, UsedItemMap>`, modelled as a list of entries kept strictly
sorted by key. -/
structure CrateMap where
  source_map : List (String × UsedItemMap) := []
deriving DecidableEq, Repr

/-- Functional model of `BTreeMap<String, UsedItemMap>::insert`: keys are
kept in strictly increasing lexicographic order and inserting an existing key
replaces its value. -/
def CrateMap.insertEntry :
    List (String × UsedItemMap) → String → UsedItemMap →
      List (String × UsedItemMap)
  | [], k, v => [(k, v)]
  | (k', v') :: rest, k, v =>
    if k < k' then (k, v) :: (k', v') :: rest
    else if k = k' then (k, v) :: rest
    else (k', v') :: CrateMap.insertEntry rest k v

/-- `ra_batch::PackageRoot`, restricted to the accessor the code uses:
`is_member()`. -/
structure PackageRoot where
  is_member : Bool

/-- A source root of the analysis database; `walk()` enumerates its files. -/
structure SourceRoot where
  files : List Nat

/-- The loaded analysis host: the `Analysis` snapshot plus the raw-database
queries `source_root(id).walk()` and `file_relative_path(file_id)` that
`list_used_items_in_cargo` performs. -/
structure AnalysisHost where
  analysis : Analysis
  source_root : Nat → SourceRoot
  file_relative_path : Nat → String

/-- `list_used_items_in_cargo` (src/used_item.rs lines 11 to 37) after a
successful `load_cargo` (a load failure propagates out through `?` and
produces no map at all): every source root whose package root is not a
member is skipped; each file of a member root is resolved and its
`(relative path, used items)` entry inserted into the `BTreeMap`. -/
def list_used_items_in_cargo (host : AnalysisHost)
    (source_map : List (Nat × PackageRoot)) : CrateMap :=
  source_map.foldl
    (fun map entry =>
      if entry.2.is_member then
        (host.source_root entry.1).files.foldl
          (fun map file_id =>
            ⟨CrateMap.insertEntry map.source_map
              (host.file_relative_path file_id)
              (UsedItemResolver.used_items ⟨host.analysis, file_id⟩)⟩)
          map
      else map)
    {}

/-! Order facts for `UsedItemKind.lt` and `UsedItem.lt`. -/

theorem UsedItemKind.toNat_inj : ∀ a b : UsedItemKind, a.toNat = b.toNat → a = b := by
  intro a b
  cases a <;> cases b <;> decide

theorem UsedItem.lt_irrefl (x : UsedItem) : ¬ UsedItem.lt x x := by
  rintro (h | ⟨-, h⟩)
  · exact (lt_self_iff_false _).mp h
  · exact Nat.lt_irrefl _ h

theorem UsedItem.lt_trans {x y z : UsedItem} (h1 : UsedItem.lt x y)
    (h2 : UsedItem.lt y z) : UsedItem.lt x z := by
  rcases h1 with h1 | ⟨e1, k1⟩
  · rcases h2 with h2 | ⟨e2, k2⟩
    · exact Or.inl (h1.trans h2)
    · exact Or.inl (e2 ▸ h1)
  · rcases h2 with h2 | ⟨e2, k2⟩
    · exact Or.inl (by rw [e1]; exact h2)
    · exact Or.inr ⟨e1.trans e2, Nat.lt_trans k1 k2⟩

theorem UsedItem.lt_asymm {x y : UsedItem} (h : UsedItem.lt x y) :
    ¬ UsedItem.lt y x :=
  fun h2 => UsedItem.lt_irrefl x (UsedItem.lt_trans h h2)

theorem UsedItem.eq_iff (x y : UsedItem) :
    x = y ↔ x.name = y.name ∧ x.kind = y.kind := by
  constructor
  · rintro rfl
    exact ⟨rfl, rfl⟩
  · rcases x with ⟨nx, kx⟩
    rcases y with ⟨ny, ky⟩
    rintro ⟨h1, h2⟩
    simp only at h1 h2
    rw [h1, h2]

theorem UsedItem.lt_connex {x y : UsedItem} (h1 : ¬ UsedItem.lt x y)
    (h2 : x ≠ y) : UsedItem.lt y x := by
  rcases lt_trichotomy x.name y.name with hn | hn | hn
  · exact absurd (Or.inl hn) h1
  · have hk : x.kind ≠ y.kind := by
      intro he
      exact h2 ((UsedItem.eq_iff x y).mpr ⟨hn, he⟩)
    have hkn : x.kind.toNat ≠ y.kind.toNat :=
      fun he => hk (UsedItemKind.toNat_inj _ _ he)
    have hnotlt : ¬ UsedItemKind.lt x.kind y.kind := fun hl => h1 (Or.inr ⟨hn, hl⟩)
    have : y.kind.toNat < x.kind.toNat := by
      rcases Nat.lt_trichotomy x.kind.toNat y.kind.toNat with h | h | h
      · exact absurd h hnotlt
      · exact absurd h hkn
      · exact h
    exact Or.inr ⟨hn.symm, this⟩
  · exact Or.inl hn

/-! Facts about the `BTreeSet` model `UsedItemSet.insert`. -/

theorem UsedItemSet.mem_insert (x a : UsedItem) (s : List UsedItem) :
    x ∈ UsedItemSet.insert a s ↔ x = a ∨ x ∈ s := by
  induction s with
  | nil => simp [UsedItemSet.insert]
  | cons y ys ih =>
    simp only [UsedItemSet.insert]
    by_cases h1 : UsedItem.lt a y
    · rw [if_pos h1]
      simp
    · rw [if_neg h1]
      by_cases h2 : a = y
      · subst h2
        rw [if_pos rfl]
        simp only [List.mem_cons]
        tauto
      · rw [if_neg h2]
        simp only [List.mem_cons, ih]
        tauto

theorem UsedItemSet.pairwise_insert (a : UsedItem) (s : List UsedItem)
    (hs : List.Pairwise UsedItem.lt s) :
    List.Pairwise UsedItem.lt (UsedItemSet.insert a s) := by
  induction s with
  | nil => simp [UsedItemSet.insert]
  | cons y ys ih =>
    rcases List.pairwise_cons.mp hs with ⟨hy, hys⟩
    by_cases h1 : UsedItem.lt a y
    · simp only [UsedItemSet.insert, if_pos h1]
      refine List.pairwise_cons.mpr ⟨?_, hs⟩
      intro z hz
      rcases List.mem_cons.mp hz with rfl | hz'
      · exact h1
      · exact UsedItem.lt_trans h1 (hy z hz')
    · by_cases h2 : a = y
      · simp only [UsedItemSet.insert, if_neg h1, if_pos h2]
        exact hs
      · simp only [UsedItemSet.insert, if_neg h1, if_neg h2]
        refine List.pairwise_cons.mpr ⟨?_, ih hys⟩
        intro z hz
        rcases (UsedItemSet.mem_insert z a ys).mp hz with rfl | hz'
        · exact UsedItem.lt_connex h1 h2
        · exact hy z hz'

theorem UsedItemSet.insert_of_mem (a : UsedItem) (s : List UsedItem)
    (hs : List.Pairwise UsedItem.lt s) (ha : a ∈ s) :
    UsedItemSet.insert a s = s := by
  induction s with
  | nil => cases ha
  | cons y ys ih =>
    rcases List.pairwise_cons.mp hs with ⟨hy, hys⟩
    rcases List.mem_cons.mp ha with rfl | ha'
    · simp [UsedItemSet.insert, UsedItem.lt_irrefl a]
    · have hlt : UsedItem.lt y a := hy a ha'
      have h1 : ¬ UsedItem.lt a y := UsedItem.lt_asymm hlt
      have h2 : a ≠ y := by
        intro he
        subst he
        exact UsedItem.lt_irrefl a hlt
      simp only [UsedItemSet.insert, if_neg h1, if_neg h2, ih hys ha']

/-! Facts about `UsedItemMap` and the accumulator. -/

theorem UsedItemMap.kindSet_empty (K : UsedItemKind) :
    ({} : UsedItemMap).kindSet K = [] := by
  cases K <;> rfl

theorem UsedItemMap.kindSet_add_imported_item (m : UsedItemMap) (i : UsedItem)
    (K : UsedItemKind) :
    (UsedItemResolver.add_imported_item m i).kindSet K =
      if i.kind = K then UsedItemSet.insert i (m.kindSet K) else m.kindSet K := by
  rcases i with ⟨n, k⟩
  cases k <;> cases K <;>
    simp [UsedItemResolver.add_imported_item, UsedItemMap.kindSet]

theorem UsedItemMap.mem_kindSet_add_imported_item (m : UsedItemMap)
    (i x : UsedItem) (K : UsedItemKind) :
    x ∈ (UsedItemResolver.add_imported_item m i).kindSet K ↔
      (x = i ∧ i.kind = K) ∨ x ∈ m.kindSet K := by
  rw [UsedItemMap.kindSet_add_imported_item]
  by_cases hk : i.kind = K
  · rw [if_pos hk]
    simp [UsedItemSet.mem_insert, hk]
  · rw [if_neg hk]
    simp [hk]

theorem UsedItemResolver.add_imported_items_cons (m : UsedItemMap)
    (i : UsedItem) (ts : List UsedItem) :
    UsedItemResolver.add_imported_items m (i :: ts) =
      UsedItemResolver.add_imported_items
        (UsedItemResolver.add_imported_item m i) ts := rfl

theorem UsedItemMap.mem_kindSet_add_imported_items (m : UsedItemMap)
    (l : List UsedItem) (K : UsedItemKind) (x : UsedItem) :
    x ∈ (UsedItemResolver.add_imported_items m l).kindSet K ↔
      (x ∈ l ∧ x.kind = K) ∨ x ∈ m.kindSet K := by
  induction l generalizing m with
  | nil =>
    simp [UsedItemResolver.add_imported_items]
  | cons i ts ih =>
    rw [UsedItemResolver.add_imported_items_cons, ih,
      UsedItemMap.mem_kindSet_add_imported_item, List.mem_cons]
    constructor
    · rintro (⟨hts, hk⟩ | (⟨rfl, hk⟩ | hm))
      · exact Or.inl ⟨Or.inr hts, hk⟩
      · exact Or.inl ⟨Or.inl rfl, hk⟩
      · exact Or.inr hm
    · rintro (⟨rfl | hts, hk⟩ | hm)
      · exact Or.inr (Or.inl ⟨rfl, hk⟩)
      · exact Or.inl ⟨hts, hk⟩
      · exact Or.inr (Or.inr hm)

theorem UsedItemMap.pairwise_kindSet_add_imported_items (m : UsedItemMap)
    (l : List UsedItem) (K : UsedItemKind)
    (h : List.Pairwise UsedItem.lt (m.kindSet K)) :
    List.Pairwise UsedItem.lt
      ((UsedItemResolver.add_imported_items m l).kindSet K) := by
  induction l generalizing m with
  | nil => exact h
  | cons i ts ih =>
    rw [UsedItemResolver.add_imported_items_cons]
    apply ih
    rw [UsedItemMap.kindSet_add_imported_item]
    by_cases hk : i.kind = K
    · rw [if_pos hk]
      exact UsedItemSet.pairwise_insert i _ h
    · rw [if_neg hk]
      exact h

/-- Invariant preservation along a left fold, with access to list membership
of the element being folded. -/
theorem foldl_preserves {α β : Type _} (P : β → Prop) (f : β → α → β) :
    ∀ (l : List α) (b : β), (∀ b' a, a ∈ l → P b' → P (f b' a)) → P b →
      P (l.foldl f b)
  | [], _, _, hb => hb
  | a :: l, b, h, hb =>
    foldl_preserves P f l (f b a)
      (fun b' a' ha' => h b' a' (List.mem_cons_of_mem a ha'))
      (h b a (List.mem_cons_self a l) hb)

/-- Every `UsedItemMap` property that holds of the empty map and is preserved
by `add_imported_items` holds of the map produced by
`UsedItemResolver::used_items`. -/
theorem UsedItemResolver.used_items_invariant (r : UsedItemResolver)
    (P : UsedItemMap → Prop) (hP0 : P {})
    (hstep : ∀ m l, P m → P (UsedItemResolver.add_imported_items m l)) :
    P r.used_items := by
  unfold UsedItemResolver.used_items
  split
  · exact hP0
  · apply foldl_preserves P _ _ _ _ hP0
    intro m u _ hm
    cases hcase : r.used_items_in_use_item u with
    | none => simp only [hcase]; exact hm
    | some items => simp only [hcase]; exact hstep m items hm

/-! Facts about the `BTreeMap` model `CrateMap.insertEntry`. -/

theorem CrateMap.mem_insertEntry (l : List (String × UsedItemMap)) (k : String)
    (v : UsedItemMap) (p : String × UsedItemMap)
    (hp : p ∈ CrateMap.insertEntry l k v) : p = (k, v) ∨ p ∈ l := by
  induction l with
  | nil =>
    simp only [CrateMap.insertEntry, List.mem_singleton] at hp
    exact Or.inl hp
  | cons q rest ih =>
    rcases q with ⟨k', v'⟩
    simp only [CrateMap.insertEntry] at hp
    by_cases h1 : k < k'
    · rw [if_pos h1] at hp
      rcases List.mem_cons.mp hp with rfl | hp'
      · exact Or.inl rfl
      · exact Or.inr hp'
    · rw [if_neg h1] at hp
      by_cases h2 : k = k'
      · rw [if_pos h2] at hp
        rcases List.mem_cons.mp hp with rfl | hp'
        · exact Or.inl rfl
        · exact Or.inr (List.mem_cons_of_mem _ hp')
      · rw [if_neg h2] at hp
        rcases List.mem_cons.mp hp with rfl | hp'
        · exact Or.inr (List.mem_cons_self _ _)
        · rcases ih hp' with h | h
          · exact Or.inl h
          · exact Or.inr (List.mem_cons_of_mem _ h)

theorem CrateMap.pairwise_insertEntry (l : List (String × UsedItemMap))
    (k : String) (v : UsedItemMap)
    (hl : List.Pairwise (fun p q => p.1 < q.1) l) :
    List.Pairwise (fun p q => p.1 < q.1) (CrateMap.insertEntry l k v) := by
  induction l with
  | nil => simp [CrateMap.insertEntry]
  | cons q rest ih =>
    rcases q with ⟨k', v'⟩
    rcases List.pairwise_cons.mp hl with ⟨hk', hrest⟩
    simp only [CrateMap.insertEntry]
    by_cases h1 : k < k'
    · rw [if_pos h1]
      refine List.pairwise_cons.mpr ⟨?_, hl⟩
      intro q hq
      rcases List.mem_cons.mp hq with rfl | hq'
      · exact h1
      · exact h1.trans (hk' q hq')
    · rw [if_neg h1]
      by_cases h2 : k = k'
      · rw [if_pos h2]
        subst h2
        exact List.pairwise_cons.mpr ⟨hk', hrest⟩
      · rw [if_neg h2]
        have hk'k : k' < k := by
          rcases lt_trichotomy k k' with h | h | h
          · exact absurd h h1
          · exact absurd h h2
          · exact h
        refine List.pairwise_cons.mpr ⟨?_, ih hrest⟩
        intro q hq
        rcases CrateMap.mem_insertEntry rest k v q hq with rfl | hq'
        · exact hk'k
        · exact hk' q hq'

/-! Concrete collaborators used to exercise the theorems below. -/

/-- A collaborator that fails every parse and every resolution query. -/
def failingAnalysis : Analysis :=
  ⟨fun _ => Except.error (), fun _ => Except.error ()⟩

/-- A resolver over `failingAnalysis`. -/
def failingResolver : UsedItemResolver := ⟨failingAnalysis, 0⟩

/-- A collaborator for a file whose single top-level item is
`use std::collections::HashMap;`, resolving to a struct named HashMap. -/
def structAnalysis : Analysis :=
  ⟨fun _ => Except.ok ⟨[ModuleItem.useItem ⟨some (UseTree.leaf 7)⟩]⟩,
   fun _ => Except.ok (some [⟨"HashMap", SyntaxKind.STRUCT_DEF⟩])⟩

/-- A resolver over `structAnalysis`. -/
def structResolver : UsedItemResolver := ⟨structAnalysis, 0⟩

theorem structResolver_used_items :
    structResolver.used_items =
      { structs := [⟨"HashMap", UsedItemKind.Struct⟩] } := rfl

/-- A collaborator for a file whose single top-level item is one `use`
declaration with tree `t`, resolving through the oracle `g`. -/
def singleUseAnalysis
    (g : FilePosition → Except Unit (Option (List NavigationTarget)))
    (t : UseTree) : Analysis :=
  ⟨fun _ => Except.ok ⟨[ModuleItem.useItem ⟨some t⟩]⟩, g⟩

theorem used_items_in_use_tree_children_eq (r : UsedItemResolver) :
    ∀ children : List UseTree,
      UsedItemResolver.used_items_in_use_tree_children r children =
        (children.map fun t => (r.used_items_in_use_tree t).getD []).flatten
  | [] => rfl
  | t :: ts => by
    simp only [UsedItemResolver.used_items_in_use_tree_children, List.map_cons,
      List.flatten_cons, used_items_in_use_tree_children_eq r ts]

/-- Membership in the per-file map of a file holding a single `use`
declaration with tree `t`: exactly the items of the expansion of `t` whose
kind matches, where a `None` expansion contributes nothing. -/
theorem mem_used_items_single
    (g : FilePosition → Except Unit (Option (List NavigationTarget)))
    (fid : Nat) (t : UseTree) (K : UsedItemKind) (x : UsedItem) :
    x ∈ (UsedItemResolver.used_items ⟨singleUseAnalysis g t, fid⟩).kindSet K ↔
      (x ∈ (UsedItemResolver.used_items_in_use_tree
              ⟨singleUseAnalysis g t, fid⟩ t).getD [] ∧ x.kind = K) := by
  unfold UsedItemResolver.used_items
  simp only [singleUseAnalysis, List.filterMap_cons, item_to_use_item,
    List.filterMap_nil, List.foldl_cons, List.foldl_nil,
    UsedItemResolver.used_items_in_use_item]
  cases h : UsedItemResolver.used_items_in_use_tree ⟨singleUseAnalysis g t, fid⟩ t with
  | none =>
    simp only [singleUseAnalysis] at h
    simp [h, UsedItemMap.kindSet_empty]
  | some items =>
    simp only [singleUseAnalysis] at h
    simp [h, UsedItemMap.mem_kindSet_add_imported_items,
      UsedItemMap.kindSet_empty]

/-- Claim C1: for every group node, the expander returns `Some` of the
concatenation, in left-to-right child order, of the expansions of its
children, where a child whose recursive expansion is `None` contributes the
empty list and aborts nothing; in particular an empty group expands to
`Some []`. -/
theorem claim_C1 (r : UsedItemResolver) (children : List UseTree) :
    r.used_items_in_use_tree (UseTree.group children) =
      some ((children.map fun t => (r.used_items_in_use_tree t).getD []).flatten) := by
  rw [UsedItemResolver.used_items_in_use_tree,
    used_items_in_use_tree_children_eq]

/-- Claim C2: for every resolution oracle `g` and leaf offsets `b`, `c`,
the per-file map of a file importing the group `a::{b, c}` holds, in each
kind-set, exactly the union of what the files importing `a::b` alone and
`a::c` alone produce. -/
theorem claim_C2
    (g : FilePosition → Except Unit (Option (List NavigationTarget)))
    (fid b c : Nat) (K : UsedItemKind) (x : UsedItem) :
    x ∈ (UsedItemResolver.used_items
          ⟨singleUseAnalysis g (UseTree.group [UseTree.leaf b, UseTree.leaf c]),
            fid⟩).kindSet K ↔
      (x ∈ (UsedItemResolver.used_items
              ⟨singleUseAnalysis g (UseTree.leaf b), fid⟩).kindSet K ∨
       x ∈ (UsedItemResolver.used_items
              ⟨singleUseAnalysis g (UseTree.leaf c), fid⟩).kindSet K) := by
  rw [mem_used_items_single, mem_used_items_single, mem_used_items_single]
  simp only [UsedItemResolver.used_items_in_use_tree,
    UsedItemResolver.used_items_in_use_tree_children, singleUseAnalysis,
    Option.getD_some, List.append_nil, List.mem_append]
  tauto

/-- Claim C7: the symbol classifier is total and agrees with its explicit
enumeration; every syntax kind other than the seven enumerated ones is
classified as `Other`. -/
theorem claim_C7 (k : SyntaxKind) :
    UsedItemKind.from_syntax_kind k =
      if k = SyntaxKind.SOURCE_FILE then UsedItemKind.Module
      else if k = SyntaxKind.TRAIT_DEF then UsedItemKind.Trait
      else if k = SyntaxKind.STRUCT_DEF then UsedItemKind.Struct
      else if k = SyntaxKind.ENUM_DEF then UsedItemKind.Enum
      else if k = SyntaxKind.FN_DEF then UsedItemKind.Fn
      else if k = SyntaxKind.CONST_DEF then UsedItemKind.Const
      else if k = SyntaxKind.MACRO_CALL then UsedItemKind.Macro
      else UsedItemKind.Other := by
  cases k <;> rfl

/-- Claim C4: the derived order on `UsedItem` compares the `name` field
first and the `kind` field second; it is a strict total order (trichotomy,
transitivity, asymmetry); the order on `UsedItemKind` follows declaration
order Module, Trait, Struct, Enum, Fn, Const, Macro, Other; and two
`UsedItem` values are equal iff both fields are equal. -/
theorem claim_C4 :
    (∀ x y : UsedItem, UsedItem.lt x y ↔
        (x.name < y.name ∨ (x.name = y.name ∧ UsedItemKind.lt x.kind y.kind))) ∧
    (∀ x y : UsedItem, UsedItem.lt x y ∨ x = y ∨ UsedItem.lt y x) ∧
    (∀ x y z : UsedItem, UsedItem.lt x y → UsedItem.lt y z → UsedItem.lt x z) ∧
    (∀ x y : UsedItem, UsedItem.lt x y → ¬ UsedItem.lt y x) ∧
    (UsedItemKind.lt UsedItemKind.Module UsedItemKind.Trait ∧
     UsedItemKind.lt UsedItemKind.Trait UsedItemKind.Struct ∧
     UsedItemKind.lt UsedItemKind.Struct UsedItemKind.Enum ∧
     UsedItemKind.lt UsedItemKind.Enum UsedItemKind.Fn ∧
     UsedItemKind.lt UsedItemKind.Fn UsedItemKind.Const ∧
     UsedItemKind.lt UsedItemKind.Const UsedItemKind.Macro ∧
     UsedItemKind.lt UsedItemKind.Macro UsedItemKind.Other) ∧
    (∀ x y : UsedItem, x = y ↔ x.name = y.name ∧ x.kind = y.kind) := by
  refine ⟨fun x y => Iff.rfl, ?_, ?_, ?_, by decide, UsedItem.eq_iff⟩
  · intro x y
    by_cases h1 : UsedItem.lt x y
    · exact Or.inl h1
    · by_cases h2 : x = y
      · exact Or.inr (Or.inl h2)
      · exact Or.inr (Or.inr (UsedItem.lt_connex h1 h2))
  · exact fun x y z h1 h2 => UsedItem.lt_trans h1 h2
  · exact fun x y h => UsedItem.lt_asymm h

/-- Witness for claim C4: transitivity applied at concrete items with equal
names and increasing kinds. -/
theorem claim_C4_witness :
    UsedItem.lt ⟨"a", UsedItemKind.Module⟩ ⟨"a", UsedItemKind.Struct⟩ :=
  claim_C4.2.2.1 ⟨"a", UsedItemKind.Module⟩ ⟨"a", UsedItemKind.Trait⟩
    ⟨"a", UsedItemKind.Struct⟩ (Or.inr ⟨rfl, by decide⟩)
    (Or.inr ⟨rfl, by decide⟩)

/-- Counterexample to claim C3 as stated: a use declaration that DOES have a
tree (a single unresolvable leaf) still yields `None`, because the leaf arm
of `used_items_in_use_tree` returns `None` on resolution failure and
`used_items_in_use_item` passes that through. -/
theorem claim_C3_counterexample :
    (UseItem.mk (some (UseTree.leaf 0))).use_tree ≠ none ∧
    UsedItemResolver.used_items_in_use_item failingResolver
      (UseItem.mk (some (UseTree.leaf 0))) = none :=
  ⟨fun h => Option.noConfusion h, rfl⟩

/-- Claim C3 as amended: processing a use declaration returns `None` iff the
declaration has no tree at all, or its tree is a single leaf whose
resolution does not return `Ok(Some(targets))`; every declaration whose tree
is a group (and every one whose leaf resolves) yields `Some`. -/
theorem claim_C3_amended (r : UsedItemResolver) (use_item : UseItem) :
    r.used_items_in_use_item use_item = none ↔
      use_item.use_tree = none ∨
        ∃ endOffset, use_item.use_tree = some (UseTree.leaf endOffset) ∧
          ∀ navigation_targets,
            r.analysis.goto_definition ⟨r.file_id, endOffset⟩ ≠
              Except.ok (some navigation_targets) := by
  rcases use_item with ⟨tree⟩
  cases tree with
  | none => simp [UsedItemResolver.used_items_in_use_item]
  | some t =>
    cases t with
    | group children =>
      simp [UsedItemResolver.used_items_in_use_item,
        UsedItemResolver.used_items_in_use_tree]
    | leaf endOffset =>
      simp only [UsedItemResolver.used_items_in_use_item,
        UsedItemResolver.used_items_in_use_tree, Option.some.injEq,
        UseTree.leaf.injEq, reduceCtorEq, false_or]
      cases hg : r.analysis.goto_definition ⟨r.file_id, endOffset⟩ with
      | error e =>
        simp [hg]
      | ok v =>
        cases v with
        | none => simp [hg]
        | some navigation_targets =>
          simp only [hg]
          constructor
          · intro h
            exact Option.noConfusion h
          · rintro ⟨off, rfl, h⟩
            exact absurd hg (h navigation_targets)

/-- Claim C5: in every per-file map, each kind-set holds no two equal
`UsedItem` values (equality being over the `(name, kind)` pair), and
inserting an item already present leaves the set unchanged. -/
theorem claim_C5 (r : UsedItemResolver) (K : UsedItemKind) :
    ((r.used_items).kindSet K).Nodup ∧
    ∀ x ∈ (r.used_items).kindSet K,
      UsedItemSet.insert x ((r.used_items).kindSet K) =
        (r.used_items).kindSet K := by
  have hpair : List.Pairwise UsedItem.lt ((r.used_items).kindSet K) := by
    refine UsedItemResolver.used_items_invariant r
      (fun m => List.Pairwise UsedItem.lt (m.kindSet K)) ?_ ?_
    · show List.Pairwise UsedItem.lt (({} : UsedItemMap).kindSet K)
      rw [UsedItemMap.kindSet_empty]
      exact List.Pairwise.nil
    · exact fun m l hm => UsedItemMap.pairwise_kindSet_add_imported_items m l K hm
  refine ⟨hpair.imp ?_, fun x hx => UsedItemSet.insert_of_mem x _ hpair hx⟩
  intro a b hab heq
  exact UsedItem.lt_irrefl a (heq ▸ hab)

/-- Witness for claim C5: re-inserting the single resolved item of the
HashMap file into its structs set is a no-op. -/
theorem claim_C5_witness :
    UsedItemSet.insert ⟨"HashMap", UsedItemKind.Struct⟩
        ((structResolver.used_items).kindSet UsedItemKind.Struct) =
      (structResolver.used_items).kindSet UsedItemKind.Struct :=
  (claim_C5 structResolver UsedItemKind.Struct).2
    ⟨"HashMap", UsedItemKind.Struct⟩
    (by simp [structResolver_used_items, UsedItemMap.kindSet])

/-- Claim C6: every item stored in the kind-set for K has kind K, both in
every per-file map the accumulator produces and after any insertion step it
performs. -/
theorem claim_C6 (r : UsedItemResolver) (K : UsedItemKind) :
    (∀ x ∈ (r.used_items).kindSet K, x.kind = K) ∧
    ∀ (m : UsedItemMap) (l : List UsedItem),
      (∀ y ∈ m.kindSet K, y.kind = K) →
      ∀ x ∈ (UsedItemResolver.add_imported_items m l).kindSet K, x.kind = K := by
  have hstep : ∀ (m : UsedItemMap) (l : List UsedItem),
      (∀ y ∈ m.kindSet K, y.kind = K) →
      ∀ x ∈ (UsedItemResolver.add_imported_items m l).kindSet K, x.kind = K := by
    intro m l hm x hx
    rcases (UsedItemMap.mem_kindSet_add_imported_items m l K x).mp hx with
      ⟨-, hk⟩ | hx'
    · exact hk
    · exact hm x hx'
  refine ⟨?_, hstep⟩
  refine UsedItemResolver.used_items_invariant r
    (fun m => ∀ x ∈ m.kindSet K, x.kind = K) ?_ (fun m l hm => hstep m l hm)
  intro x hx
  rw [UsedItemMap.kindSet_empty] at hx
  cases hx

/-- Witness for claim C6 at the HashMap file and the structs set. -/
theorem claim_C6_witness :
    (⟨"HashMap", UsedItemKind.Struct⟩ : UsedItem).kind = UsedItemKind.Struct :=
  (claim_C6 structResolver UsedItemKind.Struct).1
    ⟨"HashMap", UsedItemKind.Struct⟩
    (by simp [structResolver_used_items, UsedItemMap.kindSet])

/-- Claim C8: when the parse of the file fails, the accumulator returns the
default map, all eight kind-sets empty, rather than an error. -/
theorem claim_C8 (r : UsedItemResolver) (e : Unit)
    (hparse : r.analysis.parse r.file_id = Except.error e) :
    r.used_items = {} ∧ ∀ K, (r.used_items).kindSet K = [] := by
  have h : r.used_items = {} := by
    unfold UsedItemResolver.used_items
    rw [hparse]
  exact ⟨h, fun K => by rw [h]; exact UsedItemMap.kindSet_empty K⟩

/-- Witness for claim C8 at a collaborator whose parse always fails. -/
theorem claim_C8_witness :
    failingResolver.used_items = {} ∧
      ∀ K, (failingResolver.used_items).kindSet K = [] :=
  claim_C8 failingResolver () rfl

/-- Claim C9: the final map holds entries only for files of member package
roots (non-member roots are skipped), each entry carrying the relative path
and per-file result of one such file, and its keys are kept in strictly
increasing lexicographic order, so iteration is deterministic for identical
input state. -/
theorem claim_C9 (host : AnalysisHost)
    (source_map : List (Nat × PackageRoot)) :
    List.Pairwise (fun p q => p.1 < q.1)
        ((list_used_items_in_cargo host source_map).source_map) ∧
    ∀ p ∈ (list_used_items_in_cargo host source_map).source_map,
      ∃ source_root_id package_root file_id,
        (source_root_id, package_root) ∈ source_map ∧
        package_root.is_member = true ∧
        file_id ∈ (host.source_root source_root_id).files ∧
        host.file_relative_path file_id = p.1 ∧
        p.2 = UsedItemResolver.used_items ⟨host.analysis, file_id⟩ := by
  let P : CrateMap → Prop := fun m =>
    List.Pairwise (fun p q => p.1 < q.1) m.source_map ∧
    ∀ p ∈ m.source_map,
      ∃ source_root_id package_root file_id,
        (source_root_id, package_root) ∈ source_map ∧
        package_root.is_member = true ∧
        file_id ∈ (host.source_root source_root_id).files ∧
        host.file_relative_path file_id = p.1 ∧
        p.2 = UsedItemResolver.used_items ⟨host.analysis, file_id⟩
  show P (list_used_items_in_cargo host source_map)
  unfold list_used_items_in_cargo
  apply foldl_preserves P
  · intro b entry hentry hb
    by_cases hmem : entry.2.is_member = true
    · rw [if_pos hmem]
      apply foldl_preserves P
      · intro b' file_id hfile hb'
        constructor
        · exact CrateMap.pairwise_insertEntry _ _ _ hb'.1
        · intro p hp
          rcases CrateMap.mem_insertEntry _ _ _ p hp with rfl | hp'
          · exact ⟨entry.1, entry.2, file_id, hentry, hmem, hfile, rfl, rfl⟩
          · exact hb'.2 p hp'
      · exact hb
    · rw [if_neg hmem]
      exact hb
  · exact ⟨List.Pairwise.nil, fun p hp => absurd hp (List.not_mem_nil p)⟩

/-- A loaded workspace with a single member package root holding the single
HashMap file. -/
def memberHost : AnalysisHost :=
  ⟨structAnalysis, fun _ => ⟨[0]⟩, fun _ => "src/lib.rs"⟩

theorem memberHost_map :
    list_used_items_in_cargo memberHost [(0, ⟨true⟩)] =
      ⟨[("src/lib.rs", structResolver.used_items)]⟩ := rfl

/-- Witness for claim C9: the entry of the one-file member workspace indeed
originates from its member root. -/
theorem claim_C9_witness :
    ∃ source_root_id package_root file_id,
      (source_root_id, package_root) ∈ ([(0, ⟨true⟩)] : List (Nat × PackageRoot)) ∧
      package_root.is_member = true ∧
      file_id ∈ (memberHost.source_root source_root_id).files ∧
      memberHost.file_relative_path file_id = "src/lib.rs" ∧
      structResolver.used_items =
        UsedItemResolver.used_items ⟨memberHost.analysis, file_id⟩ :=
  (claim_C9 memberHost [(0, ⟨true⟩)]).2 ("src/lib.rs", structResolver.used_items)
    (by rw [memberHost_map]; exact List.mem_singleton.mpr rfl)

/-- Claim C10: deduplication is keyed on the full `(name, kind)` pair and
confined to one kind-set: items sharing a name but differing in kind live in
their two sets simultaneously, and inserting an item never removes an item
already stored in any kind-set. -/
theorem claim_C10 (m : UsedItemMap) (n : String) (K1 K2 : UsedItemKind)
    (_hne : K1 ≠ K2) :
    (⟨n, K1⟩ : UsedItem) ∈
        (UsedItemResolver.add_imported_items m [⟨n, K1⟩, ⟨n, K2⟩]).kindSet K1 ∧
    (⟨n, K2⟩ : UsedItem) ∈
        (UsedItemResolver.add_imported_items m [⟨n, K1⟩, ⟨n, K2⟩]).kindSet K2 ∧
    ∀ (w z : UsedItem) (K : UsedItemKind), z ∈ m.kindSet K →
      z ∈ (UsedItemResolver.add_imported_items m [w]).kindSet K := by
  refine ⟨?_, ?_, ?_⟩
  · exact (UsedItemMap.mem_kindSet_add_imported_items m _ K1 _).mpr
      (Or.inl ⟨by simp, rfl⟩)
  · exact (UsedItemMap.mem_kindSet_add_imported_items m _ K2 _).mpr
      (Or.inl ⟨by simp, rfl⟩)
  · intro w z K hz
    exact (UsedItemMap.mem_kindSet_add_imported_items m [w] K z).mpr (Or.inr hz)

/-- Witness for claim C10: the same name under kinds Module and Trait lands
in both sets, and an item already stored under Fn survives an insertion. -/
theorem claim_C10_witness :
    (⟨"a", UsedItemKind.Module⟩ : UsedItem) ∈
        (UsedItemResolver.add_imported_items { fns := [⟨"b", UsedItemKind.Fn⟩] }
          [⟨"a", UsedItemKind.Module⟩, ⟨"a", UsedItemKind.Trait⟩]).kindSet
          UsedItemKind.Module ∧
    (⟨"a", UsedItemKind.Trait⟩ : UsedItem) ∈
        (UsedItemResolver.add_imported_items { fns := [⟨"b", UsedItemKind.Fn⟩] }
          [⟨"a", UsedItemKind.Module⟩, ⟨"a", UsedItemKind.Trait⟩]).kindSet
          UsedItemKind.Trait ∧
    (⟨"b", UsedItemKind.Fn⟩ : UsedItem) ∈
        (UsedItemResolver.add_imported_items { fns := [⟨"b", UsedItemKind.Fn⟩] }
          [⟨"a", UsedItemKind.Module⟩]).kindSet UsedItemKind.Fn := by
  obtain ⟨h1, h2, h3⟩ := claim_C10 { fns := [⟨"b", UsedItemKind.Fn⟩] } "a"
    UsedItemKind.Module UsedItemKind.Trait (by decide)
  exact ⟨h1, h2, h3 ⟨"a", UsedItemKind.Module⟩ ⟨"b", UsedItemKind.Fn⟩
    UsedItemKind.Fn (by simp [UsedItemMap.kindSet])⟩
